import Mathlib

/-!
Verification of the DY-SV19T UART audio-module driver
(`src/TouchAudioModule/code/drivers/dy_sv19t_driver/code/dy_sv19t.py`).

Bytes are modelled as `Nat` (with `< 256` side conditions where the Python
`bytes` type enforces them), byte strings as `List Nat`, and Python text
strings as `List Char`.  Fallible methods return `Except String _`; methods
that write to the UART additionally return the list of frames written, in
order.  The receive loop is modelled over the finite list of bytes that
arrive before the deadline: exhausting the list is the timeout outcome
(`none`), mirroring the `while ticks_diff < timeout_ms` loop.
-/

namespace DYSV19T

/-- Stepwise low-8-bit accumulating sum, as in the Python loops
`sm = (sm + b) & 0xFF`. -/
def checksum (l : List Nat) : Nat := l.foldl (fun s b => (s + b) % 256) 0

/-- `_build_frame`: `AA CMD LEN DATA... SM`.  (The Python version raises if
`cmd` or `len(data)` does not fit a byte; theorems carry those bounds as
hypotheses.) -/
def build_frame (cmd : Nat) (data : List Nat) : List Nat :=
  0xAA :: cmd :: data.length :: (data ++ [checksum (0xAA :: cmd :: data.length :: data)])

/-- `_parse_response`: validate `AA CMD LEN DATA... SM` and return the
command byte and the data slice; `none` models the `ValueError` branches
(too short / bad start byte / length mismatch / checksum mismatch). -/
def parse_response (resp : List Nat) : Option (Nat × List Nat) :=
  if resp.length < 4 then none
  else if resp.getD 0 0 ≠ 0xAA then none
  else
    let cmd := resp.getD 1 0
    let n := resp.getD 2 0
    if resp.length ≠ 4 + n then none
    else if checksum resp.dropLast ≠ (resp.getLast?).getD 0 then none
    else some (cmd, (resp.drop 3).take n)

/-- `checksum` is the plain sum reduced mod 256. -/
theorem checksum_eq_sum (l : List Nat) : checksum l = l.sum % 256 := by
  suffices h : ∀ (l : List Nat) (a : Nat),
      l.foldl (fun s b => (s + b) % 256) (a % 256) = (a + l.sum) % 256 by
    simpa using h l 0
  intro l
  induction l with
  | nil => intro a; simp
  | cons b t ih =>
      intro a
      simp only [List.foldl_cons, List.sum_cons]
      rw [Nat.mod_add_mod, ih (a + b)]
      ring_nf

/-- The encoder and decoder round-trip (the embedding-level fact behind C1,
stated without byte bounds, which a `List Nat` frame does not need). -/
theorem parse_build_frame (cmd : Nat) (data : List Nat) :
    parse_response (build_frame cmd data) = some (cmd, data) := by
  have hb : build_frame cmd data
      = ((0xAA : Nat) :: cmd :: data.length :: data)
          ++ [checksum ((0xAA : Nat) :: cmd :: data.length :: data)] := by
    simp [build_frame]
  rw [hb]
  unfold parse_response
  rw [List.dropLast_concat, List.getLast?_concat]
  have hlen : (((0xAA : Nat) :: cmd :: data.length :: data)
      ++ [checksum ((0xAA : Nat) :: cmd :: data.length :: data)]).length
      = 4 + data.length := by simp; omega
  rw [hlen]
  have h0 : (((0xAA : Nat) :: cmd :: data.length :: data)
      ++ [checksum ((0xAA : Nat) :: cmd :: data.length :: data)]).getD 0 0 = 0xAA := by
    simp [List.getD]
  have h1 : (((0xAA : Nat) :: cmd :: data.length :: data)
      ++ [checksum ((0xAA : Nat) :: cmd :: data.length :: data)]).getD 1 0 = cmd := by
    simp [List.getD]
  have h2 : (((0xAA : Nat) :: cmd :: data.length :: data)
      ++ [checksum ((0xAA : Nat) :: cmd :: data.length :: data)]).getD 2 0
      = data.length := by
    simp [List.getD]
  rw [h0, h1, h2]
  have hdrop : (((0xAA : Nat) :: cmd :: data.length :: data)
      ++ [checksum ((0xAA : Nat) :: cmd :: data.length :: data)]).drop 3
      = data ++ [checksum ((0xAA : Nat) :: cmd :: data.length :: data)] := by
    simp
  rw [hdrop]
  simp [List.take_left data]

/-- C1: for every command byte `cmd` and every payload of length 0..255
(of bytes), decoding an encoded frame round-trips:
`_parse_response (_build_frame cmd payload)` succeeds and returns exactly
the command and the payload. -/
theorem roundtrip_build_parse (cmd : Nat) (data : List Nat)
    (hcmd : cmd ≤ 255) (hlen : data.length ≤ 255) (hdata : ∀ b ∈ data, b ≤ 255) :
    parse_response (build_frame cmd data) = some (cmd, data) :=
  parse_build_frame cmd data

theorem roundtrip_build_parse_witness :
    parse_response (build_frame 0x02 [0x10, 0xFF]) = some (0x02, [0x10, 0xFF]) :=
  roundtrip_build_parse 0x02 [0x10, 0xFF] (by decide) (by decide)
    (by intro b hb; fin_cases hb <;> decide)

/-- C2: `_parse_response raw` fails exactly when `raw` has fewer than 4
bytes, or its first byte is not 0xAA, or its length differs from
`3 + declared_length + 1`, or the low 8 bits of the sum of all bytes except
the last differ from the last byte; otherwise it succeeds and returns the
command code `raw[1]` and the data slice `raw[3:3+n]`.  (The function is
pure: it touches no driver state.) -/
theorem parse_response_failure_spec (resp : List Nat) :
    (parse_response resp = none ↔
      (resp.length < 4 ∨ resp.getD 0 0 ≠ 0xAA ∨
       resp.length ≠ 3 + resp.getD 2 0 + 1 ∨
       resp.dropLast.sum % 256 ≠ (resp.getLast?).getD 0))
  ∧ (∀ c d, parse_response resp = some (c, d) →
       c = resp.getD 1 0 ∧ d = (resp.drop 3).take (resp.getD 2 0)) := by
  rw [show 3 + resp.getD 2 0 + 1 = 4 + resp.getD 2 0 by omega]
  constructor
  · unfold parse_response
    rw [← checksum_eq_sum]
    split_ifs with h1 h2 h3 h4 <;> simp_all
  · intro c d h
    simp only [parse_response] at h
    split_ifs at h
    simp only [Option.some.injEq, Prod.mk.injEq] at h
    exact ⟨h.1.symm, h.2.symm⟩

theorem parse_response_failure_spec_witness :
    (1 : Nat) = [0xAA, 1, 0, 0xAB].getD 1 0 ∧
    ([] : List Nat) = ([0xAA, 1, 0, 0xAB].drop 3).take ([0xAA, 1, 0, 0xAB].getD 2 0) :=
  (parse_response_failure_spec [0xAA, 1, 0, 0xAB]).2 1 [] (by decide)

/-- `_recv_response`'s polling loop as a state machine over the list of
bytes that arrive before the deadline.  `state = 0` seeks `0xAA`; any
successor state accumulates into `buf`.  A complete candidate (buffer
length equals `4 + buf[2]`, the `need` variable) is parsed: on failure the
buffer is discarded and seeking restarts on the *remaining* bytes; on a
command mismatch likewise; on a match the raw frame is returned.
Exhausting the arrivals is the timeout (`none`). -/
def recv_loop (expected : Option Nat) : List Nat → Nat → List Nat → Option (List Nat)
  | [], _, _ => none
  | x :: rest, 0, _ =>
      if x = 0xAA then recv_loop expected rest 1 [0xAA]
      else recv_loop expected rest 0 []
  | x :: rest, _ + 1, buf =>
      let buf2 := buf ++ [x]
      if buf2.length ≥ 3 ∧ buf2.length = 4 + buf2.getD 2 0 then
        match parse_response buf2 with
        | none => recv_loop expected rest 0 []
        | some (c, _) =>
            if expected = none ∨ expected = some c then some buf2
            else recv_loop expected rest 0 []
      else recv_loop expected rest 1 buf2

/-- `_recv_response`: each call starts seeking afresh with an empty buffer. -/
def recv_response (expected : Option Nat) (stream : List Nat) : Option (List Nat) :=
  recv_loop expected stream 0 []

lemma recv_loop_nil (e : Option Nat) (s : Nat) (b : List Nat) :
    recv_loop e [] s b = none := rfl

lemma recv_loop_seek (e : Option Nat) (x : Nat) (rest b : List Nat) :
    recv_loop e (x :: rest) 0 b =
      if x = 0xAA then recv_loop e rest 1 [0xAA] else recv_loop e rest 0 [] := rfl

lemma recv_loop_step (e : Option Nat) (x : Nat) (k : Nat) (rest buf : List Nat) :
    recv_loop e (x :: rest) (k + 1) buf =
      if (buf ++ [x]).length ≥ 3 ∧ (buf ++ [x]).length = 4 + (buf ++ [x]).getD 2 0 then
        match parse_response (buf ++ [x]) with
        | none => recv_loop e rest 0 []
        | some (c, _) =>
            if e = none ∨ e = some c then some (buf ++ [x])
            else recv_loop e rest 0 []
      else recv_loop e rest 1 (buf ++ [x]) := rfl

/-- Accumulating a candidate frame: with `0xAA a n ws` already buffered,
feeding the remaining `ys` bytes (completing a buffer of total length
`4 + n`) runs the parse exactly once, on the full candidate. -/
lemma recv_loop_accum (e : Option Nat) (a n : Nat) :
    ∀ (ys ws rest : List Nat), ws.length + ys.length = n + 1 → ys ≠ [] →
      recv_loop e (ys ++ rest) 1 (0xAA :: a :: n :: ws) =
        match parse_response (0xAA :: a :: n :: (ws ++ ys)) with
        | none => recv_loop e rest 0 []
        | some (c, _) =>
            if e = none ∨ e = some c then some (0xAA :: a :: n :: (ws ++ ys))
            else recv_loop e rest 0 [] := by
  intro ys
  induction ys with
  | nil => intro ws rest h hne; exact absurd rfl hne
  | cons y ys ih =>
    intro ws rest h _
    rw [List.cons_append, recv_loop_step]
    have hbuf : (0xAA :: a :: n :: ws) ++ [y] = 0xAA :: a :: n :: (ws ++ [y]) := by simp
    cases ys with
    | nil =>
      have hws : ws.length = n := by simpa using h
      simp only [hbuf]
      have hcond : (0xAA :: a :: n :: (ws ++ [y])).length ≥ 3 ∧
          (0xAA :: a :: n :: (ws ++ [y])).length
            = 4 + (0xAA :: a :: n :: (ws ++ [y])).getD 2 0 := by
        constructor
        · simp
        · simp [List.getD]; omega
      rw [if_pos hcond]
      simp
    | cons y2 ys2 =>
      have hlt : ws.length + 1 < n + 1 := by
        simp only [List.length_cons] at h; omega
      simp only [hbuf]
      have hcond : ¬((0xAA :: a :: n :: (ws ++ [y])).length ≥ 3 ∧
          (0xAA :: a :: n :: (ws ++ [y])).length
            = 4 + (0xAA :: a :: n :: (ws ++ [y])).getD 2 0) := by
        simp [List.getD]; omega
      rw [if_neg hcond]
      have harg : (ws ++ [y]).length + (y2 :: ys2).length = n + 1 := by
        simp only [List.length_append, List.length_cons, List.length_nil] at h ⊢
        omega
      have := ih (ws ++ [y]) rest harg (by simp)
      rw [this]
      simp [List.append_assoc]

/-- Consuming one complete, length-consistent candidate frame from the
seeking state: the receiver parses exactly that candidate, then either
returns it (parse success and command match) or restarts seeking on the
remaining bytes. -/
lemma recv_loop_frame (e : Option Nat) (a n : Nat) (tail rest : List Nat)
    (h : tail.length = n + 1) :
    recv_loop e ((0xAA :: a :: n :: tail) ++ rest) 0 [] =
      match parse_response (0xAA :: a :: n :: tail) with
      | none => recv_loop e rest 0 []
      | some (c, _) =>
          if e = none ∨ e = some c then some (0xAA :: a :: n :: tail)
          else recv_loop e rest 0 [] := by
  rw [List.cons_append, recv_loop_seek, if_pos rfl, List.cons_append, recv_loop_step]
  have h1 : ¬((([0xAA] : List Nat) ++ [a]).length ≥ 3 ∧
      (([0xAA] : List Nat) ++ [a]).length = 4 + (([0xAA] : List Nat) ++ [a]).getD 2 0) := by
    simp
  rw [if_neg h1, List.cons_append, recv_loop_step]
  have h2 : ¬((([0xAA] : List Nat) ++ [a] ++ [n]).length ≥ 3 ∧
      (([0xAA] : List Nat) ++ [a] ++ [n]).length
        = 4 + (([0xAA] : List Nat) ++ [a] ++ [n]).getD 2 0) := by
    simp [List.getD]
    omega
  rw [if_neg h2]
  have hbuf : ([0xAA] : List Nat) ++ [a] ++ [n] = 0xAA :: a :: n :: ([] : List Nat) := by
    simp
  rw [hbuf, recv_loop_accum e a n tail [] rest (by simpa using h)
    (by intro hc; rw [hc] at h; simp at h)]
  simp

/-- C3 counterexample: the claim quantifies over *every* stream holding a
corrupted frame immediately followed by a valid expected frame.  Take the
corrupted frame `AA 01 01 FF` (its declared length 1 disagrees with its
actual data length 0) followed by the valid status frame `AA 01 00 AB`.
The receiver, needing `4 + 1` bytes, consumes the valid frame's start
sentinel into the corrupted candidate, the candidate fails its checksum,
and the rest of the stream holds no further `0xAA`: the call times out
(`none`) instead of delivering the valid frame. -/
theorem recv_corrupt_then_valid_counterexample :
    parse_response [0xAA, 0x01, 0x01, 0xFF] = none ∧
    parse_response [0xAA, 0x01, 0x00, 0xAB] = some (0x01, []) ∧
    recv_response (some 0x01)
      ([0xAA, 0x01, 0x01, 0xFF] ++ [0xAA, 0x01, 0x00, 0xAB]) = none := by
  refine ⟨by decide, by decide, by decide⟩

/-- C3 (amended): if the corrupted frame is length-consistent — its total
length is `4 + its declared length byte`, so the receiver consumes exactly
it — and it fails `_parse_response`, and it is immediately followed by a
valid frame whose command equals the expected command, then
`_recv_response` delivers the valid frame (within the same deadline
window) and never returns the corrupted one.  The unamended claim is
false: on a length-inconsistent corruption the receiver does not re-scan
consumed bytes and can miss a mid-stream start sentinel (see the
counterexample). -/
theorem recv_delivers_valid_after_corrupt (e a n m : Nat) (ct gt d : List Nat)
    (hct : ct.length = n + 1)
    (hcorrupt : parse_response (0xAA :: a :: n :: ct) = none)
    (hgt : gt.length = m + 1)
    (hvalid : parse_response (0xAA :: e :: m :: gt) = some (e, d)) :
    recv_response (some e) ((0xAA :: a :: n :: ct) ++ (0xAA :: e :: m :: gt))
      = some (0xAA :: e :: m :: gt) := by
  unfold recv_response
  rw [recv_loop_frame (some e) a n ct _ hct, hcorrupt]
  have hg := recv_loop_frame (some e) e m gt [] hgt
  rw [List.append_nil] at hg
  simp only []
  rw [hg, hvalid]
  simp

theorem recv_delivers_valid_after_corrupt_witness :
    recv_response (some 0x01) ([0xAA, 0x05, 0x00, 0xFF] ++ [0xAA, 0x01, 0x00, 0xAB])
      = some [0xAA, 0x01, 0x00, 0xAB] :=
  recv_delivers_valid_after_corrupt 0x01 0x05 0 0 [0xFF] [0xAB] []
    (by decide) (by decide) (by decide) (by decide)

/-- The cached attributes of a `DYSV19T` driver instance. -/
structure DriverState where
  play_state : Nat
  current_disk : Nat
  volume : Nat
  play_mode : Nat
  eq : Nat
  dac_channel : Nat
  deriving DecidableEq

def PLAY_STOP : Nat := 0x00
def PLAY_PLAY : Nat := 0x01
def PLAY_PAUSE : Nat := 0x02
def MODE_FULL_LOOP : Nat := 0x00
def MODE_SINGLE_STOP : Nat := 0x02
def MODE_DIR_RANDOM : Nat := 0x05
def MODE_DIR_SEQUENCE : Nat := 0x06
def MODE_SEQUENCE : Nat := 0x07

/-- The cache as `__init__` leaves it with all-default arguments:
`play_state = PLAY_STOP`, disk USB, volume 30, mode single-stop, EQ
normal, channel MP3. -/
def initState : DriverState :=
  { play_state := PLAY_STOP, current_disk := 0x00, volume := 30,
    play_mode := MODE_SINGLE_STOP, eq := 0x00, dac_channel := 0x00 }

/-- `_u16`: split a 0..65535 value into high and low bytes; `none` models
the `ValueError` for values outside 0..65535. -/
def u16 (value : Nat) : Option (Nat × Nat) :=
  if value ≤ 0xFFFF then some ((value >>> 8) &&& 0xFF, value &&& 0xFF) else none

/-- `set_loop_count`: `_u16` validation first (an error here writes
nothing), then the `0x19` frame is written, and only after the write is
the cached mode checked against the unsupported set
`{0x02, 0x03, 0x05, 0x06, 0x07}`.  The first component lists the frames
written to the UART, in order. -/
def set_loop_count (st : DriverState) (count : Nat) :
    List (List Nat) × Except String DriverState :=
  match u16 count with
  | none => ([], Except.error "The parameter must be in the range of 0..65535")
  | some (hi, lo) =>
      if st.play_mode = 0x02 ∨ st.play_mode = 0x03 ∨ st.play_mode = 0x05 ∨
          st.play_mode = 0x06 ∨ st.play_mode = 0x07 then
        ([build_frame 0x19 [hi, lo]], Except.error "The playback mode is incorrect")
      else
        ([build_frame 0x19 [hi, lo]], Except.ok st)

/-- `play`: send `AA 02 00 SM`, then set the cached `play_state` to
`PLAY_PLAY`. -/
def play (st : DriverState) : List (List Nat) × DriverState :=
  ([build_frame 0x02 []], { st with play_state := PLAY_PLAY })

/-- C4: for every count in 1..65535, if the cached play mode is one of
single-stop (0x02), full-random (0x03), directory-random (0x05),
directory-sequential (0x06) or full-sequential (0x07), then
`set_loop_count` raises the invalid-state `ValueError`, and the 0x19 frame
has already been written to the transport when it does (the write log is
nonempty alongside the error). -/
theorem set_loop_count_mode_error_after_write (st : DriverState) (count : Nat)
    (h1 : 1 ≤ count) (h2 : count ≤ 65535)
    (h3 : st.play_mode = 0x02 ∨ st.play_mode = 0x03 ∨ st.play_mode = 0x05 ∨
          st.play_mode = 0x06 ∨ st.play_mode = 0x07) :
    set_loop_count st count =
      ([build_frame 0x19 [(count >>> 8) &&& 0xFF, count &&& 0xFF]],
       Except.error "The playback mode is incorrect") := by
  unfold set_loop_count u16
  rw [if_pos h2]
  simp only []
  rw [if_pos h3]

theorem set_loop_count_mode_error_after_write_witness :
    set_loop_count initState 5 =
      ([[0xAA, 0x19, 0x02, 0x00, 0x05, 0xCA]],
       Except.error "The playback mode is incorrect") := by
  rw [set_loop_count_mode_error_after_write initState 5 (by decide) (by decide)
    (Or.inl (by decide))]
  rfl

/-- C7 evaluation at the failing input: with cached mode `MODE_FULL_LOOP`,
`set_loop_count 0` passes `_u16` (which accepts 0..65535, not 1..65535),
writes the 0x19 frame `AA 19 02 00 00 C5`, and raises no error at all —
no synchronous pre-write validation rejects 0, contradicting the
documented 1..65535 domain. -/
theorem set_loop_count_zero_writes_without_error :
    set_loop_count { initState with play_mode := MODE_FULL_LOOP } 0 =
      ([[0xAA, 0x19, 0x02, 0x00, 0x00, 0xC5]],
       Except.ok { initState with play_mode := MODE_FULL_LOOP }) := by
  rfl

/-- C8: `play` writes exactly the bytes `AA 02 00 AC`
(`(0xAA + 0x02 + 0x00) % 256 = 0xAC`), and afterwards the cached
`play_state` equals `PLAY_PLAY`. -/
theorem play_writes_frame_and_sets_playing (st : DriverState) :
    play st = ([[0xAA, 0x02, 0x00, 0xAC]], { st with play_state := PLAY_PLAY }) := by
  rfl

/-- The character set `_validate_path` accepts: `/`, `*`, `.`, `_`,
digits `0`-`9` (`ord` 48..57) and uppercase `A`-`Z` (`ord` 65..90). -/
def allowedChar (c : Char) : Prop :=
  c = '/' ∨ c = '*' ∨ c = '.' ∨ c = '_' ∨
  (48 ≤ c.toNat ∧ c.toNat ≤ 57) ∨ (65 ≤ c.toNat ∧ c.toNat ≤ 90)

instance (c : Char) : Decidable (allowedChar c) := by
  unfold allowedChar; infer_instance

/-- The folder-segment loop of `_validate_path`: walk the characters after
the leading `/` accumulating the current segment; at a `/` require the
finished segment's length to be 1..8 and restart; at `*` or `.` stop the
whole check; the trailing segment at end of string is never checked. -/
def segcheck : List Char → List Char → Bool
  | [], _ => true
  | c :: rest, seg =>
      if c = '/' then
        if 1 ≤ seg.length ∧ seg.length ≤ 8 then segcheck rest [] else false
      else if c = '*' ∨ c = '.' then true
      else segcheck rest (seg ++ [c])

/-- `_validate_path`: reject an empty string, a string not starting with
`/`, a string with a character outside `allowedChar`, or a failing
folder-segment check; on success return the ASCII bytes of the path. -/
def validate_path : List Char → Option (List Nat)
  | [] => none
  | c :: rest =>
      if c ≠ '/' then none
      else if ¬ ∀ ch ∈ c :: rest, allowedChar ch then none
      else if segcheck rest [] then some ((c :: rest).map Char.toNat) else none

/-- True of characters other than the protocol formatting characters `*`
and `.` (at which segment validation stops early). -/
def notFmt (c : Char) : Bool := !(c == '*' || c == '.')

/-- Split a character list on `/`, keeping empty chunks — the usual
"text between separators" reading used to state C5 independently of the
accumulator loop in the code. -/
def splitSlash : List Char → List (List Char)
  | [] => [[]]
  | c :: rest =>
      if c = '/' then [] :: splitSlash rest
      else
        match splitSlash rest with
        | [] => [[c]]
        | s :: ss => (c :: s) :: ss

lemma splitSlash_nil : splitSlash [] = [[]] := rfl

lemma splitSlash_cons_slash (rest : List Char) :
    splitSlash ('/' :: rest) = [] :: splitSlash rest := by
  simp [splitSlash]

lemma splitSlash_cons_ne (c : Char) (rest : List Char) (h : c ≠ '/') :
    splitSlash (c :: rest) =
      (match splitSlash rest with
       | [] => [[c]]
       | s :: ss => (c :: s) :: ss) := by
  simp only [splitSlash]
  rw [if_neg h]

lemma splitSlash_ne_nil (l : List Char) : splitSlash l ≠ [] := by
  cases l with
  | nil => simp [splitSlash_nil]
  | cons c rest =>
      by_cases hc : c = '/'
      · subst hc; rw [splitSlash_cons_slash]; simp
      · rw [splitSlash_cons_ne c rest hc]
        cases h : splitSlash rest <;> simp

lemma splitSlash_append (acc xs : List Char) (h : '/' ∉ acc) :
    splitSlash (acc ++ xs) =
      (acc ++ (splitSlash xs).headI) :: (splitSlash xs).tail := by
  induction acc with
  | nil =>
      cases hx : splitSlash xs with
      | nil => exact absurd hx (splitSlash_ne_nil xs)
      | cons s ss => simp [hx]
  | cons a acc ih =>
      have ha : a ≠ '/' := by
        intro hc; exact h (by simp [hc])
      have h' : '/' ∉ acc := by
        intro hc; exact h (by simp [hc])
      rw [List.cons_append, splitSlash_cons_ne a (acc ++ xs) ha, ih h']
      simp

/-- The loop `segcheck` checks exactly the segments that are terminated by
a `/` before the first formatting character: every such segment (with the
pending accumulator `acc` prepended to the first one) must have length
1..8. -/
lemma segcheck_iff (l : List Char) : ∀ (acc : List Char), '/' ∉ acc →
    (segcheck l acc = true ↔
      ∀ s ∈ (splitSlash (acc ++ l.takeWhile notFmt)).dropLast,
        1 ≤ s.length ∧ s.length ≤ 8) := by
  induction l with
  | nil =>
      intro acc hacc
      have h1 : splitSlash (acc ++ List.takeWhile notFmt []) = [acc] := by
        rw [List.takeWhile_nil, splitSlash_append acc [] hacc, splitSlash_nil]
        simp
      rw [h1]
      simp [segcheck]
  | cons c rest ih =>
      intro acc hacc
      by_cases hc : c = '/'
      · subst hc
        have hfmt : notFmt '/' = true := by decide
        cases hss : splitSlash (rest.takeWhile notFmt) with
        | nil => exact absurd hss (splitSlash_ne_nil _)
        | cons s ss =>
            have h1 : splitSlash (acc ++ List.takeWhile notFmt ('/' :: rest))
                = acc :: s :: ss := by
              rw [List.takeWhile_cons, hfmt, if_pos rfl,
                splitSlash_append acc _ hacc, splitSlash_cons_slash, hss]
              simp
            have h2 : segcheck ('/' :: rest) acc =
                if 1 ≤ acc.length ∧ acc.length ≤ 8 then segcheck rest [] else false := by
              simp [segcheck]
            have h3 := ih [] (by simp)
            rw [List.nil_append, hss] at h3
            rw [h1, h2, List.dropLast_cons₂, List.forall_mem_cons]
            by_cases hlen : 1 ≤ acc.length ∧ acc.length ≤ 8
            · rw [if_pos hlen, h3]
              exact ⟨fun hq => ⟨hlen, hq⟩, fun hpq => hpq.2⟩
            · rw [if_neg hlen]
              simp only [Bool.false_eq_true, false_iff]
              intro hall
              exact hlen hall.1
      · by_cases hf : c = '*' ∨ c = '.'
        · have hfmt : notFmt c = false := by
            rcases hf with hf | hf <;> subst hf <;> decide
          have h1 : splitSlash (acc ++ List.takeWhile notFmt (c :: rest)) = [acc] := by
            rw [List.takeWhile_cons, hfmt]
            simp only [Bool.false_eq_true, if_false]
            rw [splitSlash_append acc [] hacc, splitSlash_nil]
            simp
          have h2 : segcheck (c :: rest) acc = true := by
            simp only [segcheck]
            rw [if_neg hc, if_pos hf]
          rw [h1, h2]
          simp
        · have hfmt : notFmt c = true := by
            unfold notFmt
            simp only [Bool.not_eq_true', Bool.or_eq_false_iff, beq_eq_false_iff_ne]
            exact ⟨fun h1 => hf (Or.inl h1), fun h2 => hf (Or.inr h2)⟩
          have h1 : acc ++ List.takeWhile notFmt (c :: rest)
              = (acc ++ [c]) ++ List.takeWhile notFmt rest := by
            rw [List.takeWhile_cons, hfmt, if_pos rfl, List.append_assoc]
            simp
          have h2 : segcheck (c :: rest) acc = segcheck rest (acc ++ [c]) := by
            simp only [segcheck]
            rw [if_neg hc, if_neg hf]
          have hacc' : '/' ∉ acc ++ [c] := by
            intro hm
            rcases List.mem_append.mp hm with hm | hm
            · exact hacc hm
            · simp at hm; exact hc hm.symm
          rw [h1, h2, ih (acc ++ [c]) hacc']

/-- C5: `_validate_path` accepts `/MUSIC/01.MP3`-style strings, rejects a
path with a separator-terminated segment longer than 8 characters, and in
general fails exactly when the path is empty, or its first character is
not `/`, or some character lies outside the allowed charset, or some
directory segment — text between separators, the scan stopping early at
the first `*` or `.` — has length outside 1..8.  (The trailing chunk after
the last separator is not between separators and is not length-checked.) -/
theorem validate_path_spec :
    validate_path ("/MUSIC/01.MP3".toList)
      = some ("/MUSIC/01.MP3".toList.map Char.toNat)
  ∧ validate_path ("/ABCDEFGHI/X.MP3".toList) = none
  ∧ ∀ p : List Char, (validate_path p = none ↔
      (p = [] ∨ p.headI ≠ '/' ∨ (∃ c ∈ p, ¬ allowedChar c) ∨
       ∃ s ∈ (splitSlash ((p.drop 1).takeWhile notFmt)).dropLast,
         ¬(1 ≤ s.length ∧ s.length ≤ 8))) := by
  refine ⟨by decide, by decide, ?_⟩
  intro p
  cases p with
  | nil => simp [validate_path]
  | cons c rest =>
      have hv : validate_path (c :: rest)
          = (if c ≠ '/' then none
             else if ¬ ∀ ch ∈ c :: rest, allowedChar ch then none
             else if segcheck rest [] then some ((c :: rest).map Char.toNat)
             else none) := rfl
      rw [hv]
      by_cases hc : c = '/'
      · subst hc
        rw [if_neg (by simp)]
        have hseg := segcheck_iff rest [] (by simp)
        rw [List.nil_append] at hseg
        by_cases hall : ∀ ch ∈ ('/' : Char) :: rest, allowedChar ch
        · rw [if_neg (not_not_intro hall)]
          by_cases hsc : segcheck rest [] = true
          · rw [if_pos hsc]
            apply iff_of_false (by simp)
            rintro (h | h | ⟨x, hx, hbad⟩ | ⟨s, hs, hbad⟩)
            · exact absurd h (by simp)
            · exact h rfl
            · exact hbad (hall x hx)
            · exact hbad (hseg.mp hsc s hs)
          · rw [if_neg hsc]
            have hex : ∃ s ∈ (splitSlash (rest.takeWhile notFmt)).dropLast,
                ¬(1 ≤ s.length ∧ s.length ≤ 8) := by
              by_contra hno
              push_neg at hno
              exact hsc (hseg.mpr hno)
            exact iff_of_true rfl (Or.inr (Or.inr (Or.inr hex)))
        · rw [if_pos hall]
          have hex : ∃ x ∈ ('/' : Char) :: rest, ¬ allowedChar x := by
            by_contra hno
            push_neg at hno
            exact hall hno
          exact iff_of_true rfl (Or.inr (Or.inr (Or.inl hex)))
      · rw [if_pos hc]
        exact iff_of_true rfl (Or.inr (Or.inl hc))

/-- `path.replace('.', '*')` — on single characters, `str.replace` is a
character map. -/
def replaceDot (path : List Char) : List Char :=
  path.map (fun c => if c = '.' then '*' else c)

/-- `_validate_disk`: only USB (0x00), SD (0x01) and FLASH (0x02) pass. -/
def validate_disk (disk : Nat) : Option Nat :=
  if disk = 0x00 ∨ disk = 0x01 ∨ disk = 0x02 then some disk else none

/-- `play_disk_path`: replace `.` by `*`, validate disk then path, write
`AA 08 <len> <disk> <path...> SM`, then update `play_state` and
`current_disk`. -/
def play_disk_path (st : DriverState) (disk : Nat) (path : List Char) :
    List (List Nat) × Except String DriverState :=
  let path2 := replaceDot path
  match validate_disk disk with
  | none => ([], Except.error "The disk must be DISK_USB/SD/FLASH and must be online.")
  | some d =>
      match validate_path path2 with
      | none => ([], Except.error "invalid path")
      | some pb =>
          ([build_frame 0x08 (d :: pb)],
           Except.ok { st with play_state := PLAY_PLAY, current_disk := d })

/-- `insert_path`: replace `.` by `*`, validate disk then path, write
`AA 17 <len> <disk> <path...> SM`; no cache update. -/
def insert_path (st : DriverState) (disk : Nat) (path : List Char) :
    List (List Nat) × Except String DriverState :=
  let path2 := replaceDot path
  match validate_disk disk with
  | none => ([], Except.error "The disk must be DISK_USB/SD/FLASH and must be online.")
  | some d =>
      match validate_path path2 with
      | none => ([], Except.error "invalid path")
      | some pb => ([build_frame 0x17 (d :: pb)], Except.ok st)

/-- `query_status`: send `AA 01 00 SM` (no cache effect), then wait for a
frame with command 0x01 from the arriving bytes; on timeout return `None`
with the cache untouched; on a one-byte payload store that raw byte into
`play_state` and return it; any other payload length returns `None` with
the cache untouched.  (The inner parse cannot fail on a frame the receiver
returned; the `none` arm mirrors the propagated exception branch.) -/
def query_status (st : DriverState) (stream : List Nat) : Option Nat × DriverState :=
  match recv_response (some 0x01) stream with
  | none => (none, st)
  | some resp =>
      match parse_response resp with
      | none => (none, st)
      | some (_, d) =>
          match d with
          | [b] => (some b, { st with play_state := b })
          | _ => (none, st)

/-- `query_current_disk`: same shape as `query_status` with command 0x0A,
updating `current_disk` on a one-byte payload. -/
def query_current_disk (st : DriverState) (stream : List Nat) :
    Option Nat × DriverState :=
  match recv_response (some 0x0A) stream with
  | none => (none, st)
  | some resp =>
      match parse_response resp with
      | none => (none, st)
      | some (_, d) =>
          match d with
          | [b] => (some b, { st with current_disk := b })
          | _ => (none, st)

/-- C6: for the query methods (`query_status`, and `query_current_disk`
as a second representative), if no valid frame with the expected command
code arrives before the timeout, the method returns `None` without
raising, and every cached attribute (`play_state`, `current_disk`,
`volume`, `play_mode`, `eq`, `dac_channel`) is unchanged: the returned
state is the input state. -/
theorem query_timeout_no_change (st : DriverState) (stream : List Nat) :
    (recv_response (some 0x01) stream = none → query_status st stream = (none, st))
  ∧ (recv_response (some 0x0A) stream = none →
      query_current_disk st stream = (none, st)) := by
  constructor
  · intro h
    unfold query_status
    rw [h]
  · intro h
    unfold query_current_disk
    rw [h]

theorem query_timeout_no_change_witness :
    query_status initState [] = (none, initState) ∧
    query_current_disk initState [] = (none, initState) :=
  ⟨(query_timeout_no_change initState []).1 (by decide),
   (query_timeout_no_change initState []).2 (by decide)⟩

/-- C10: when `query_status` receives a valid response frame whose DATA
is exactly one byte, it stores that raw byte into the cached `play_state`
and returns it, for every byte value 0..255, with no membership check
against {PLAY_STOP, PLAY_PLAY, PLAY_PAUSE}. -/
theorem query_status_stores_raw_byte (st : DriverState) (b : Nat) (hb : b ≤ 255) :
    query_status st (build_frame 0x01 [b]) = (some b, { st with play_state := b }) := by
  have hframe : build_frame 0x01 [b]
      = 0xAA :: 0x01 :: 1 :: ([b] ++ [checksum [0xAA, 0x01, 1, b]]) := rfl
  have hp : parse_response (0xAA :: 0x01 :: 1 :: ([b] ++ [checksum [0xAA, 0x01, 1, b]]))
      = some (0x01, [b]) := by
    have h := parse_build_frame 0x01 [b]
    rw [hframe] at h
    exact h
  have hrecv : recv_response (some 0x01) (build_frame 0x01 [b])
      = some (build_frame 0x01 [b]) := by
    unfold recv_response
    have hfr := recv_loop_frame (some 0x01) 0x01 1
      ([b] ++ [checksum [0xAA, 0x01, 1, b]]) [] (by simp)
    rw [List.append_nil] at hfr
    rw [hframe, hfr, hp]
    simp
  unfold query_status
  rw [hrecv]
  show (match parse_response (build_frame 0x01 [b]) with
        | none => (none, st)
        | some (_, d) =>
            match d with
            | [b2] => (some b2, { st with play_state := b2 })
            | _ => (none, st)) = (some b, { st with play_state := b })
  rw [parse_build_frame 0x01 [b]]

theorem query_status_stores_raw_byte_witness :
    query_status initState (build_frame 0x01 [0x47])
      = (some 0x47, { initState with play_state := 0x47 }) :=
  query_status_stores_raw_byte initState 0x47 (by decide)

/-- C9: `play_disk_path` and `insert_path` replace every `.` by `*`
before validating and encoding, so on success the single frame written
carries DATA equal to the disk byte followed by the bytes of the
dot-replaced path, the path bytes never contain 0x2E (`.`), and
`/MUSIC/01.MP3` is transmitted as the bytes of `/MUSIC/01*MP3`. -/
theorem path_methods_replace_dot :
    (∀ st disk path, (play_disk_path st disk path).2.isOk = true →
        (play_disk_path st disk path).1
          = [build_frame 0x08 (disk :: (replaceDot path).map Char.toNat)])
  ∧ (∀ st disk path, (insert_path st disk path).2.isOk = true →
        (insert_path st disk path).1
          = [build_frame 0x17 (disk :: (replaceDot path).map Char.toNat)])
  ∧ (∀ path, (0x2E : Nat) ∉ (replaceDot path).map Char.toNat)
  ∧ (play_disk_path initState 0 ("/MUSIC/01.MP3".toList)).1
      = [build_frame 0x08 (0 :: ("/MUSIC/01*MP3".toList.map Char.toNat))] := by
  have hdot : ∀ path : List Char, (0x2E : Nat) ∉ (replaceDot path).map Char.toNat := by
    intro path hmem
    obtain ⟨b, hb, hbe⟩ := List.mem_map.mp hmem
    obtain ⟨a, _, hae⟩ := List.mem_map.mp hb
    by_cases hadot : a = '.'
    · rw [if_pos hadot] at hae
      rw [← hae] at hbe
      exact absurd hbe (by decide)
    · rw [if_neg hadot] at hae
      subst hae
      have h1 := congrArg Char.ofNat hbe
      rw [Char.ofNat_toNat] at h1
      exact hadot (h1.trans (by decide))
  have hshape : ∀ (p : List Char) (pb : List Nat),
      validate_path p = some pb → pb = p.map Char.toNat := by
    intro p pb h
    cases p with
    | nil => simp [validate_path] at h
    | cons c cs =>
        have hv : validate_path (c :: cs)
            = (if c ≠ '/' then none
               else if ¬ ∀ ch ∈ c :: cs, allowedChar ch then none
               else if segcheck cs [] then some ((c :: cs).map Char.toNat)
               else none) := rfl
        rw [hv] at h
        split_ifs at h
        exact (Option.some.inj h).symm
  have hdisk : ∀ (disk d : Nat), validate_disk disk = some d → d = disk := by
    intro disk d hd
    unfold validate_disk at hd
    split_ifs at hd
    exact (Option.some.inj hd).symm
  refine ⟨?_, ?_, hdot, by decide⟩
  · intro st disk path h
    cases hd : validate_disk disk with
    | none => simp [play_disk_path, hd, Except.isOk, Except.toBool] at h
    | some d =>
        cases hp : validate_path (replaceDot path) with
        | none => simp [play_disk_path, hd, hp, Except.isOk, Except.toBool] at h
        | some pb =>
            have hpb := hshape (replaceDot path) pb hp
            subst hpb
            have hdd := hdisk disk d hd
            subst hdd
            simp [play_disk_path, hd, hp]
  · intro st disk path h
    cases hd : validate_disk disk with
    | none => simp [insert_path, hd, Except.isOk, Except.toBool] at h
    | some d =>
        cases hp : validate_path (replaceDot path) with
        | none => simp [insert_path, hd, hp, Except.isOk, Except.toBool] at h
        | some pb =>
            have hpb := hshape (replaceDot path) pb hp
            subst hpb
            have hdd := hdisk disk d hd
            subst hdd
            simp [insert_path, hd, hp]

theorem path_methods_replace_dot_witness :
    (play_disk_path initState 0 ("/A.B".toList)).1
      = [build_frame 0x08 (0 :: (replaceDot "/A.B".toList).map Char.toNat)] :=
  path_methods_replace_dot.1 initState 0 ("/A.B".toList) (by decide)

end DYSV19T
